import Mathlib

set_option maxRecDepth 100000

/-!
Shallow embedding of `scripts/run_strategy.py` (SMA-crossover strategy:
signal generation and order simulation) together with the parts of the
data model the order ledger needs.

Modelling conventions:
* Prices and rolling means are rationals (`ℚ`); pandas `NaN` entries of a
  rolling mean become `Option.none`, and the pandas comparison rule
  `NaN > x = False` is embedded explicitly (`smaGT`).
* A calendar date is a year/month/day triple; subtraction of two
  timestamps (`pd.Timestamp` arithmetic) goes through the standard
  days-from-civil conversion `toEpochDay`.
* `Timestamp.tz` holds the zone a timestamp was localized to
  (`none` = timezone-naive).  `tz_localize` either succeeds or raises in
  pandas; the embedding receives the success predicate as an explicit
  argument `tzValid : String → Bool`, and `_make_dt` returns the naive
  timestamp when localization fails, exactly as the `try/except` at
  run_strategy.py lines 37-41 does.
* The `for idx in range(n - 1)` loop of `generate_orders` becomes a left
  fold of `procBar` over `List.range (n - 1)`.
-/

/-- A calendar date (pandas timestamps in this pipeline carry no time
component until `_make_dt` adds one). -/
structure Date where
  y : Int
  m : Int
  d : Int
deriving DecidableEq, Repr, Inhabited

/-- Days since the Unix epoch (standard civil-calendar conversion); this
is how subtracting two pandas timestamps measures whole days. -/
def toEpochDay (dt : Date) : Int :=
  let y := if dt.m ≤ 2 then dt.y - 1 else dt.y
  let era := (if 0 ≤ y then y else y - 399) / 400
  let yoe := y - era * 400
  let mp := (dt.m + 9) % 12
  let doy := (153 * mp + 2) / 5 + dt.d - 1
  let doe := yoe * 365 + yoe / 4 - yoe / 100 + doy
  era * 146097 + doe - 719468

/-- A pandas `Timestamp`: date, wall-clock time of day, and the timezone
it is localized to (`none` when timezone-naive).  Seconds are always zero
in this program. -/
structure Timestamp where
  date : Date
  hh : Int
  mm : Int
  tz : Option String
deriving DecidableEq, Repr, Inhabited

/-- Strip the timezone, keeping the local wall time: `tz_localize(None)`. -/
def stripTZ (t : Timestamp) : Timestamp :=
  { t with tz := none }

/-- Whole days between two timestamps after stripping timezones:
`(a.tz_localize(None) - b.tz_localize(None)).days`.  A Python
`timedelta.days` floors toward minus infinity, hence `Int.fdiv`. -/
def tsub_days (a b : Timestamp) : Int :=
  Int.fdiv ((toEpochDay a.date * 1440 + a.hh * 60 + a.mm)
    - (toEpochDay b.date * 1440 + b.hh * 60 + b.mm)) 1440

/-- One row of the validated price series (`REQUIRED_COLS`), dates
strictly increasing after cleaning. -/
structure PriceBar where
  date : Date
  «open» : ℚ
  high : ℚ
  low : ℚ
  close : ℚ
  volume : Option ℚ
deriving DecidableEq, Repr, Inhabited

/-- A price bar extended with the two rolling means and the binary
signal, as produced by `compute_sma_signals`. -/
structure SigRow where
  date : Date
  «open» : ℚ
  high : ℚ
  low : ℚ
  close : ℚ
  volume : Option ℚ
  sma_fast : Option ℚ
  sma_slow : Option ℚ
  signal : Nat
deriving DecidableEq, Repr, Inhabited

/-- Rolling mean `Series.rolling(w).mean()` at position `i`: the unweighted mean of the
trailing window `xs[i+1-w : i+1]`, undefined (`NaN` in pandas) while fewer
than `w` observations exist.  pandas rejects `w = 0`, so the embedding
returns `none` there; all claims assume positive windows. -/
def rollingMean (w : Nat) (xs : List ℚ) (i : Nat) : Option ℚ :=
  if 1 ≤ w ∧ w ≤ i + 1 then
    some (((xs.take (i + 1)).drop (i + 1 - w)).sum / (w : ℚ))
  else
    none

/-- The pandas comparison `fast_sma > slow_sma` on possibly-`NaN` values:
any comparison involving `NaN` is `False`. -/
def smaGT : Option ℚ → Option ℚ → Bool
  | some f, some s => decide (s < f)
  | _, _ => false

/-- Row `i` of the signal frame: the price bar plus `sma_fast`,
`sma_slow` and `signal = (sma_fast > sma_slow).astype(int)`
(run_strategy.py lines 25-31). -/
def sigRowAt (fast slow : Nat) (bars : List PriceBar) (i : Nat) : SigRow :=
  let closes := bars.map PriceBar.close
  let b := bars.getD i default
  { date := b.date, «open» := b.«open», high := b.high, low := b.low,
    close := b.close, volume := b.volume,
    sma_fast := rollingMean fast closes i,
    sma_slow := rollingMean slow closes i,
    signal := if smaGT (rollingMean fast closes i) (rollingMean slow closes i) then 1 else 0 }

/-- Embedding of `compute_sma_signals`: the input frame with the two rolling means and
the 0/1 signal column appended. -/
def compute_sma_signals (fast slow : Nat) (bars : List PriceBar) : List SigRow :=
  (List.range bars.length).map (sigRowAt fast slow bars)

/-- Embedding of `_make_dt`: combine a date with a time of day and localize it to
`tzname`; if localization raises (unknown timezone), return the
timezone-naive timestamp instead (run_strategy.py lines 34-41).  The
argument `tzValid` embeds which zone names `tz_localize` accepts. -/
def _make_dt (tzValid : String → Bool) (date_val : Date) (hh mm : Int)
    (tzname : String) : Timestamp :=
  let ts : Timestamp := { date := date_val, hh := hh, mm := mm, tz := none }
  if tzValid tzname then { ts with tz := some tzname } else ts

/-- The in-flight position held between an entry fill and the matching
exit fill: the `open_entry` dict of `generate_orders`. -/
structure OpenEntry where
  entry_dt : Timestamp
  entry_price : ℚ
  qty : Int
deriving DecidableEq, Repr, Inhabited

/-- One row of the output ledger; exit fields are `none` for a trade
still open at the end of the series (rendered as blanks). -/
structure Order where
  entry_dt : Timestamp
  entry_price : ℚ
  qty : Int
  exit_dt : Option Timestamp
  exit_price : Option ℚ
  pnl : Option ℚ
  bars_held : Option Int
deriving DecidableEq, Repr, Inhabited

/-- Previous-bar signal `out["signal"].shift(1).fillna(0)` read at position `idx`. -/
def signal_prev (rows : List SigRow) (idx : Nat) : Nat :=
  if idx = 0 then 0 else (rows.getD (idx - 1) default).signal

/-- The position opened by an entry fill at the next bar `nxt`:
execution timestamp is `nxt`'s date at 09:15 in the configured zone and
the price is `nxt`'s open (run_strategy.py lines 62-66). -/
def entryOf (tzValid : String → Bool) (qty : Int) (tzname : String)
    (nxt : SigRow) : OpenEntry :=
  { entry_dt := _make_dt tzValid nxt.date 9 15 tzname,
    entry_price := nxt.«open»,
    qty := qty }

/-- The finalized trade appended by an exit fill at the next bar `nxt`
against the open position `e` (run_strategy.py lines 70-81):
`pnl = (next_open - entry_price) * qty` and `bars_held` is the whole-day
difference of the timezone-stripped timestamps. -/
def exitRecord (tzValid : String → Bool) (tzname : String) (nxt : SigRow)
    (e : OpenEntry) : Order :=
  let exit_dt := _make_dt tzValid nxt.date 9 15 tzname
  { entry_dt := e.entry_dt,
    entry_price := e.entry_price,
    qty := e.qty,
    exit_dt := some exit_dt,
    exit_price := some nxt.«open»,
    pnl := some ((nxt.«open» - e.entry_price) * (e.qty : ℚ)),
    bars_held := some (tsub_days exit_dt e.entry_dt) }

/-- The exit-less ledger row flushed for a position still open when the
series ends (run_strategy.py lines 85-94). -/
def flushRecord (e : OpenEntry) : Order :=
  { entry_dt := e.entry_dt,
    entry_price := e.entry_price,
    qty := e.qty,
    exit_dt := none,
    exit_price := none,
    pnl := none,
    bars_held := none }

/-- The entry test of the loop body (run_strategy.py lines 60-66):
`signal_prev == 0 and signal == 1 and open_entry is None` opens a
position at the next bar; otherwise the state is untouched. -/
def entryStep (tzValid : String → Bool) (qty : Int) (tzname : String)
    (rows : List SigRow) (idx : Nat) (st : Option OpenEntry × List Order) :
    Option OpenEntry × List Order :=
  if signal_prev rows idx = 0 ∧ (rows.getD idx default).signal = 1 ∧ st.1.isNone then
    (some (entryOf tzValid qty tzname (rows.getD (idx + 1) default)), st.2)
  else
    st

/-- The exit test of the loop body (run_strategy.py lines 69-82):
`signal_prev == 1 and signal == 0 and open_entry is not None` closes the
position at the next bar and appends the finalized trade; otherwise the
state is untouched. -/
def exitStep (tzValid : String → Bool) (tzname : String)
    (rows : List SigRow) (idx : Nat) (st : Option OpenEntry × List Order) :
    Option OpenEntry × List Order :=
  if signal_prev rows idx = 1 ∧ (rows.getD idx default).signal = 0 then
    match st.1 with
    | some e => (none, st.2 ++ [exitRecord tzValid tzname (rows.getD (idx + 1) default) e])
    | none => st
  else
    st

/-- The body of the `for idx in range(n - 1)` loop of `generate_orders`
(run_strategy.py lines 53-82), acting on the state
`(open_entry, orders)`:  first the entry test, then — on the possibly
updated state — the exit test. -/
def procBar (tzValid : String → Bool) (qty : Int) (tzname : String)
    (rows : List SigRow) (st : Option OpenEntry × List Order) (idx : Nat) :
    Option OpenEntry × List Order :=
  exitStep tzValid tzname rows idx (entryStep tzValid qty tzname rows idx st)

/-- The state of the simulation loop after all bars `0 .. n-2` have been
processed, starting flat with an empty ledger. -/
def ordersFold (tzValid : String → Bool) (qty : Int) (tzname : String)
    (rows : List SigRow) : Option OpenEntry × List Order :=
  (List.range (rows.length - 1)).foldl (procBar tzValid qty tzname rows) (none, [])

/-- Embedding of `generate_orders` (run_strategy.py lines 44-96): run the transition
loop over positions `0 .. n-2`, then flush a still-open position as an
exit-less row. -/
def generate_orders (tzValid : String → Bool) (qty : Int) (tzname : String)
    (rows : List SigRow) : List Order :=
  let final := ordersFold tzValid qty tzname rows
  match final.1 with
  | some e => final.2 ++ [flushRecord e]
  | none => final.2

/-- Number of open positions carried by the simulator state: the
`open_entry` variable holds at most one. -/
def openPositions : Option OpenEntry → Nat
  | some _ => 1
  | none => 0

/-- The fixed column order of the output ledger (run_strategy.py line 8). -/
def OUTPUT_COLS : List String :=
  ["entry_dt", "entry_price", "qty", "exit_dt", "exit_price", "pnl", "bars_held"]

/-- One cell of the rendered ledger: a formatted string, a raw number, or
the empty placeholder written for absent exit fields. -/
inductive Cell
  | str (v : String)
  | num (v : ℚ)
  | int (v : Int)
  | blank
deriving DecidableEq, Repr

/-- Two-digit zero-padded decimal field (`%m`, `%d`, `%H`, `%M`, `%S`). -/
def pad2 (n : Int) : String :=
  String.mk [Nat.digitChar (n.toNat / 10 % 10), Nat.digitChar (n.toNat % 10)]

/-- Four-digit zero-padded decimal field (`%Y`). -/
def pad4 (n : Int) : String :=
  String.mk [Nat.digitChar (n.toNat / 1000 % 10), Nat.digitChar (n.toNat / 100 % 10),
    Nat.digitChar (n.toNat / 10 % 10), Nat.digitChar (n.toNat % 10)]

/-- Rendering `strftime("%Y-%m-%d %H:%M:%S")` after the timezone has been stripped
(run_strategy.py lines 98-106): the local wall-clock time rendered with
no timezone suffix; seconds are always zero in this program. -/
def formatTS (t : Timestamp) : String :=
  pad4 t.date.y ++ "-" ++ pad2 t.date.m ++ "-" ++ pad2 t.date.d ++ " " ++
    pad2 t.hh ++ ":" ++ pad2 t.mm ++ ":" ++ pad2 0

/-- One ledger row in output form: datetime columns formatted, numeric
columns kept numeric, absent exit fields rendered as blanks.  (For a
timezone-aware column the code strips the zone and formats; for a naive
column it formats directly — both give the same local string, which is
what this per-cell function produces.) -/
def renderOrder (o : Order) : List Cell :=
  [Cell.str (formatTS o.entry_dt),
   Cell.num o.entry_price,
   Cell.int o.qty,
   (match o.exit_dt with | some t => Cell.str (formatTS t) | none => Cell.blank),
   (match o.exit_price with | some p => Cell.num p | none => Cell.blank),
   (match o.pnl with | some p => Cell.num p | none => Cell.blank),
   (match o.bars_held with | some b => Cell.int b | none => Cell.blank)]

/-- The final `orders_df`: header row in the fixed `OUTPUT_COLS` order and
one rendered row per trade (run_strategy.py lines 96-107). -/
def render_ledger (orders : List Order) : List String × List (List Cell) :=
  (OUTPUT_COLS, orders.map renderOrder)

/-! ### Concrete fixtures used by witnesses and the end-to-end scenario -/

/-- A timezone-validity oracle under which every zone name localizes. -/
def alwaysTZ : String → Bool := fun _ => true

/-- A timezone-validity oracle under which `tz_localize` always raises. -/
def neverTZ : String → Bool := fun _ => false

/-- Price bar with the given date, open and close. -/
def mkBar (y m d : Int) (o c : ℚ) : PriceBar :=
  { date := { y := y, m := m, d := d }, «open» := o, high := max o c,
    low := min o c, close := c, volume := some 1000 }

/-- Signal row with the given date, open price and signal value (rolling
means left undefined; `generate_orders` never reads them). -/
def mkSig (y m d : Int) (o : ℚ) (s : Nat) : SigRow :=
  { date := { y := y, m := m, d := d }, «open» := o, high := o, low := o,
    close := o, volume := some 1000, sma_fast := none, sma_slow := none, signal := s }

/-- The 6-bar scenario of the spec: closes `[10,10,10,12,12,8]`. -/
def bars6 : List PriceBar :=
  [mkBar 2024 1 1 9 10, mkBar 2024 1 2 9 10, mkBar 2024 1 3 9 10,
   mkBar 2024 1 4 9 12, mkBar 2024 1 5 13 12, mkBar 2024 1 8 7 8]

/-- Three-bar series with a single 0→1 flip at index 1. -/
def rowsW3 : List SigRow :=
  [mkSig 2024 1 1 10 0, mkSig 2024 1 2 11 1, mkSig 2024 1 3 12 0]

/-- Three-bar series whose signal flips to 1 and stays there, leaving an open
position at the end. -/
def rowsOpenW : List SigRow :=
  [mkSig 2024 1 1 10 0, mkSig 2024 1 2 11 1, mkSig 2024 1 3 12 1]

/-- Execution timestamp 2024-01-03 09:15 IST. -/
def tsA3 : Timestamp :=
  { date := { y := 2024, m := 1, d := 3 }, hh := 9, mm := 15, tz := some "Asia/Kolkata" }

/-- The position opened while simulating `rowsOpenW`. -/
def eOpenW : OpenEntry :=
  { entry_dt := tsA3, entry_price := 12, qty := 5 }

/-- Entry at bar 2, exit at bar 3, consecutive calendar days. -/
def rowsGapA : List SigRow :=
  [mkSig 2024 1 1 10 0, mkSig 2024 1 2 10 1, mkSig 2024 1 3 11 0, mkSig 2024 1 4 12 0]

/-- Same bar structure as `rowsGapA` (entry and exit one bar apart) but
with a five-day calendar gap before the exit bar. -/
def rowsGapB : List SigRow :=
  [mkSig 2024 1 1 10 0, mkSig 2024 1 2 10 1, mkSig 2024 1 3 11 0, mkSig 2024 1 8 12 0]

/-- Execution timestamp 2024-01-04 09:15 IST. -/
def tsA4 : Timestamp :=
  { date := { y := 2024, m := 1, d := 4 }, hh := 9, mm := 15, tz := some "Asia/Kolkata" }

/-- Execution timestamp 2024-01-08 09:15 IST. -/
def tsB8 : Timestamp :=
  { date := { y := 2024, m := 1, d := 8 }, hh := 9, mm := 15, tz := some "Asia/Kolkata" }

/-- The single trade simulated from `rowsGapA`: held one calendar day. -/
def tradeGapA : Order :=
  { entry_dt := tsA3, entry_price := 11, qty := 1, exit_dt := some tsA4,
    exit_price := some 12, pnl := some 1, bars_held := some 1 }

/-- The single trade simulated from `rowsGapB`: same single bar between
entry and exit, but held five calendar days. -/
def tradeGapB : Order :=
  { entry_dt := tsA3, entry_price := 11, qty := 1, exit_dt := some tsB8,
    exit_price := some 12, pnl := some 1, bars_held := some 5 }

/-- A series whose signal never leaves 0. -/
def rows0 : List SigRow :=
  [mkSig 2024 1 1 10 0, mkSig 2024 1 2 10 0, mkSig 2024 1 3 10 0]

/-- An arbitrary open position used to exercise the exit transition. -/
def eW : OpenEntry := { entry_dt := tsA3, entry_price := 10, qty := 5 }

theorem compute_sma_signals_length (fast slow : Nat) (bars : List PriceBar) :
    (compute_sma_signals fast slow bars).length = bars.length := by
  simp [compute_sma_signals]

theorem compute_sma_signals_getD (fast slow : Nat) (bars : List PriceBar)
    (i : Nat) (hi : i < bars.length) :
    (compute_sma_signals fast slow bars).getD i default = sigRowAt fast slow bars i := by
  rw [List.getD_eq_getElem _ _ (by simpa [compute_sma_signals_length] using hi)]
  simp [compute_sma_signals]

theorem procBar_cases (v : String → Bool) (q : Int) (tz : String)
    (rows : List SigRow) (st : Option OpenEntry × List Order) (idx : Nat) :
    procBar v q tz rows st idx = st ∨
    (st.1 = none ∧
      procBar v q tz rows st idx =
        (some (entryOf v q tz (rows.getD (idx + 1) default)), st.2)) ∨
    (∃ e, st.1 = some e ∧
      procBar v q tz rows st idx =
        (none, st.2 ++ [exitRecord v tz (rows.getD (idx + 1) default) e])) := by
  unfold procBar entryStep exitStep
  by_cases h1 : signal_prev rows idx = 0 ∧ (rows.getD idx default).signal = 1 ∧ st.1.isNone
  · rw [if_pos h1]
    have hn : st.1 = none := Option.isNone_iff_eq_none.mp h1.2.2
    rw [if_neg (by rintro ⟨hsp, hs0⟩; rw [h1.2.1] at hs0; exact Nat.one_ne_zero hs0)]
    exact Or.inr (Or.inl ⟨hn, rfl⟩)
  · rw [if_neg h1]
    by_cases h2 : signal_prev rows idx = 1 ∧ (rows.getD idx default).signal = 0
    · rw [if_pos h2]
      rcases hst : st.1 with _ | e
      · exact Or.inl rfl
      · exact Or.inr (Or.inr ⟨e, rfl, rfl⟩)
    · rw [if_neg h2]
      exact Or.inl rfl

theorem procBar_flat_noop (v : String → Bool) (q : Int) (tz : String)
    (rows : List SigRow) (idx : Nat) (acc : List Order)
    (hs : (rows.getD idx default).signal = 0) :
    procBar v q tz rows (none, acc) idx = (none, acc) := by
  simp only [procBar, entryStep, exitStep, hs]
  simp

theorem foldl_procBar_flat (v : String → Bool) (q : Int) (tz : String)
    (rows : List SigRow) :
    ∀ (l : List Nat) (acc : List Order),
      (∀ i ∈ l, (rows.getD i default).signal = 0) →
      l.foldl (procBar v q tz rows) (none, acc) = (none, acc) := by
  intro l
  induction l with
  | nil => intro acc h; rfl
  | cons i t ih =>
    intro acc h
    rw [List.foldl_cons, procBar_flat_noop v q tz rows i acc (h i (List.mem_cons_self i t))]
    exact ih acc (fun j hj => h j (List.mem_cons_of_mem _ hj))

theorem foldl_procBar_inv (v : String → Bool) (q : Int) (tz : String)
    (rows : List SigRow) (R : OpenEntry → Prop) (S : Order → Prop)
    (hR : ∀ nxt : SigRow, R (entryOf v q tz nxt))
    (hS : ∀ (nxt : SigRow) (e : OpenEntry), R e → S (exitRecord v tz nxt e)) :
    ∀ (l : List Nat) (st : Option OpenEntry × List Order),
      (∀ e, st.1 = some e → R e) → (∀ o ∈ st.2, S o) →
      (∀ e, (l.foldl (procBar v q tz rows) st).1 = some e → R e) ∧
      (∀ o ∈ (l.foldl (procBar v q tz rows) st).2, S o) := by
  intro l
  induction l with
  | nil => intro st h1 h2; exact ⟨h1, h2⟩
  | cons i t ih =>
    intro st h1 h2
    rw [List.foldl_cons]
    rcases procBar_cases v q tz rows st i with heq | ⟨hn, heq⟩ | ⟨e, he, heq⟩
    · rw [heq]; exact ih st h1 h2
    · rw [heq]
      refine ih _ ?_ h2
      intro e2 he2
      simp only [Option.some.injEq] at he2
      rw [← he2]
      exact hR _
    · rw [heq]
      refine ih _ ?_ ?_
      · intro e2 he2; exact absurd he2 (by simp)
      · intro o ho
        rcases List.mem_append.mp ho with h | h
        · exact h2 o h
        · rw [List.mem_singleton.mp h]
          exact hS _ e (h1 e he)

theorem mem_generate_orders (v : String → Bool) (q : Int) (tz : String)
    (rows : List SigRow) (o : Order) (h : o ∈ generate_orders v q tz rows) :
    o ∈ (ordersFold v q tz rows).2 ∨
    ∃ e, (ordersFold v q tz rows).1 = some e ∧ o = flushRecord e := by
  rcases hf : (ordersFold v q tz rows).1 with _ | e
  · left
    simpa [generate_orders, hf] using h
  · have h2 : o ∈ (ordersFold v q tz rows).2 ++ [flushRecord e] := by
      simpa [generate_orders, hf] using h
    rcases List.mem_append.mp h2 with h3 | h3
    · exact Or.inl h3
    · exact Or.inr ⟨e, rfl, List.mem_singleton.mp h3⟩

theorem generate_orders_inv (v : String → Bool) (q : Int) (tz : String)
    (rows : List SigRow) (R : OpenEntry → Prop) (S : Order → Prop)
    (hR : ∀ nxt : SigRow, R (entryOf v q tz nxt))
    (hS : ∀ (nxt : SigRow) (e : OpenEntry), R e → S (exitRecord v tz nxt e))
    (hFl : ∀ e : OpenEntry, R e → S (flushRecord e)) :
    ∀ o ∈ generate_orders v q tz rows, S o := by
  intro o ho
  have hinv := foldl_procBar_inv v q tz rows R S hR hS
    (List.range (rows.length - 1)) (none, [])
    (by intro e he; exact absurd he (by simp))
    (by intro o2 ho2; exact absurd ho2 (by simp))
  rcases mem_generate_orders v q tz rows o ho with h | ⟨e, he, heq⟩
  · exact hinv.2 o h
  · rw [heq]
    exact hFl e (hinv.1 e he)

theorem generate_orders_shape (v : String → Bool) (q : Int) (tz : String)
    (rows : List SigRow) :
    ∀ o ∈ generate_orders v q tz rows,
      (o.exit_dt.isSome ∧ o.exit_price.isSome ∧ o.pnl.isSome ∧ o.bars_held.isSome) ∨
      (o.exit_dt = none ∧ o.exit_price = none ∧ o.pnl = none ∧ o.bars_held = none) := by
  apply generate_orders_inv v q tz rows (fun _ => True)
  · intro nxt; trivial
  · intro nxt e _
    left
    simp [exitRecord]
  · intro e _
    right
    simp [flushRecord]

/-- C4: for positive window lengths, `compute_sma_signals` sets the
signal of bar `i` to 1 iff both rolling means are defined and the fast
mean is strictly greater than the slow mean; in every other case (a mean
undefined — in particular during the first `w - 1` bars of a window of
length `w` — or fast ≤ slow) the signal is 0. -/
theorem signal_one_iff_fast_gt_slow (fast slow : Nat) (bars : List PriceBar)
    (hf : 1 ≤ fast) (hs : 1 ≤ slow) (i : Nat) (hi : i < bars.length) :
    ((compute_sma_signals fast slow bars).getD i default = sigRowAt fast slow bars i) ∧
    ((sigRowAt fast slow bars i).signal = 1 ↔
      ∃ f s, (sigRowAt fast slow bars i).sma_fast = some f ∧
        (sigRowAt fast slow bars i).sma_slow = some s ∧ s < f) ∧
    ((sigRowAt fast slow bars i).signal = 1 ∨ (sigRowAt fast slow bars i).signal = 0) ∧
    (∀ w : Nat, i + 1 < w → rollingMean w (bars.map PriceBar.close) i = none) ∧
    (fast ≤ i + 1 → (sigRowAt fast slow bars i).sma_fast.isSome) ∧
    (slow ≤ i + 1 → (sigRowAt fast slow bars i).sma_slow.isSome) := by
  refine ⟨compute_sma_signals_getD fast slow bars i hi, ?_, ?_, ?_, ?_, ?_⟩
  · cases hA : rollingMean fast (bars.map PriceBar.close) i with
    | none => simp [sigRowAt, smaGT, hA]
    | some f =>
      cases hB : rollingMean slow (bars.map PriceBar.close) i with
      | none => simp [sigRowAt, smaGT, hA, hB]
      | some s =>
        by_cases hlt : s < f
        · simp [sigRowAt, smaGT, hA, hB, hlt]
        · simp [sigRowAt, smaGT, hA, hB, hlt]
  · rcases hgt : smaGT (rollingMean fast (bars.map PriceBar.close) i)
      (rollingMean slow (bars.map PriceBar.close) i) with _ | _
    · right; simp [sigRowAt, hgt]
    · left; simp [sigRowAt, hgt]
  · intro w hw
    have hcond : ¬(1 ≤ w ∧ w ≤ i + 1) := by omega
    simp [rollingMean, hcond]
  · intro hfi
    simp [sigRowAt, rollingMean, And.intro hf hfi]
  · intro hsi
    simp [sigRowAt, rollingMean, And.intro hs hsi]

/-- C4 witness at the six-bar series with fast 2, slow 3, bar 3. -/
theorem signal_one_iff_fast_gt_slow_witness :
    (compute_sma_signals 2 3 bars6).getD 3 default = sigRowAt 2 3 bars6 3 :=
  (signal_one_iff_fast_gt_slow 2 3 bars6 (by decide) (by decide) 3 (by decide)).1

/-- C1: the loop opens a position at bar `idx` exactly when the previous
signal is 0, the current signal is 1 and no position is open, recording
the next bar's open price and a timestamp built from the next bar's date
at 09:15 in the configured timezone; and a series whose signal is 0 on
every processed bar (so a 0→1 flip only on the last bar) produces no
entry at all. -/
theorem entry_on_zero_to_one (v : String → Bool) (q : Int) (tz : String)
    (rows : List SigRow) (idx : Nat) (acc : List Order)
    (hidx : idx + 1 < rows.length) :
    (signal_prev rows idx = 0 ∧ (rows.getD idx default).signal = 1 →
      procBar v q tz rows (none, acc) idx =
        (some { entry_dt := _make_dt v (rows.getD (idx + 1) default).date 9 15 tz,
                entry_price := (rows.getD (idx + 1) default).«open»,
                qty := q }, acc)) ∧
    (¬(signal_prev rows idx = 0 ∧ (rows.getD idx default).signal = 1) →
      (procBar v q tz rows (none, acc) idx).1 = none) ∧
    (∀ e e2 : OpenEntry, (procBar v q tz rows (some e, acc) idx).1 = some e2 → e2 = e) ∧
    ((∀ i, i + 1 < rows.length → (rows.getD i default).signal = 0) →
      generate_orders v q tz rows = []) := by
  refine ⟨?_, ?_, ?_, ?_⟩
  · rintro ⟨h0, h1⟩
    simp only [procBar, entryStep, exitStep, h0, h1]
    simp [entryOf]
  · intro hne
    have h1 : ¬(signal_prev rows idx = 0 ∧ (rows.getD idx default).signal = 1 ∧
        (((none : Option OpenEntry), acc)).1.isNone = true) := by
      rintro ⟨a, b, -⟩
      exact hne ⟨a, b⟩
    simp only [procBar, entryStep, exitStep, if_neg h1]
    split
    · rfl
    · rfl
  · intro e e2 he2
    rcases procBar_cases v q tz rows (some e, acc) idx with heq | ⟨hn, heq⟩ | ⟨e3, he3, heq⟩
    · rw [heq] at he2
      have h3 : some e = some e2 := he2
      exact (Option.some.injEq e e2 ▸ h3).symm
    · exact absurd hn (by simp)
    · rw [heq] at he2
      exact absurd he2 (by simp)
  · intro hall
    have hfold : ordersFold v q tz rows = (none, []) := by
      unfold ordersFold
      apply foldl_procBar_flat
      intro i hi2
      have h2 : i < rows.length - 1 := List.mem_range.mp hi2
      exact hall i (by omega)
    simp [generate_orders, hfold]

/-- C1 witness: a 0→1 flip at bar 1 of a 3-bar series opens the position
at bar 2's open with bar 2's date at 09:15 IST. -/
theorem entry_on_zero_to_one_witness :
    procBar alwaysTZ 5 "Asia/Kolkata" rowsW3 (none, []) 1 =
      (some { entry_dt := { date := { y := 2024, m := 1, d := 3 }, hh := 9, mm := 15, tz := some "Asia/Kolkata" }, entry_price := 12, qty := 5 }, []) := by
  rw [(entry_on_zero_to_one alwaysTZ 5 "Asia/Kolkata" rowsW3 1 [] (by decide)).1 ⟨by decide, by decide⟩]
  decide

/-- C2: when the previous signal is 1, the current signal is 0 and a
position is open, the loop closes it at the next bar's open with the
same next-bar 09:15 timestamp convention, appends a finalized trade with
realized P&L `(exit_price - entry_price) * qty`, and returns to the
no-position state. -/
theorem exit_closes_position (v : String → Bool) (q : Int) (tz : String)
    (rows : List SigRow) (idx : Nat) (acc : List Order) (e : OpenEntry)
    (_hidx : idx + 1 < rows.length)
    (hsp : signal_prev rows idx = 1) (hsig : (rows.getD idx default).signal = 0) :
    procBar v q tz rows (some e, acc) idx =
      (none, acc ++
        [{ entry_dt := e.entry_dt, entry_price := e.entry_price, qty := e.qty,
           exit_dt := some (_make_dt v (rows.getD (idx + 1) default).date 9 15 tz),
           exit_price := some ((rows.getD (idx + 1) default).«open»),
           pnl := some (((rows.getD (idx + 1) default).«open» - e.entry_price) * (e.qty : ℚ)),
           bars_held := some (tsub_days (_make_dt v (rows.getD (idx + 1) default).date 9 15 tz)
             e.entry_dt) }]) := by
  simp only [procBar, entryStep, exitStep, hsp, hsig]
  simp [exitRecord]

/-- C2 witness: a 1→0 flip at bar 2 of `rowsGapA` with an open position
closes it at bar 3's open (price 12) for P&L `(12 - 10) * 5 = 10`. -/
theorem exit_closes_position_witness :
    procBar alwaysTZ 5 "Asia/Kolkata" rowsGapA (some eW, []) 2 =
      (none,
        [{ entry_dt := tsA3, entry_price := 10, qty := 5,
           exit_dt := some tsA4, exit_price := some 12, pnl := some 10,
           bars_held := some 1 }]) := by
  rw [exit_closes_position alwaysTZ 5 "Asia/Kolkata" rowsGapA 2 [] eW (by decide) (by decide)
    (by decide)]
  with_unfolding_all rfl

/-- C3: at most one position is open after each processed bar — a 0→1
transition seen while a position is already open leaves the state and the
ledger untouched, a 1→0 transition seen while flat appends nothing, and
the simulator state never carries more than one open position. -/
theorem at_most_one_open_position (v : String → Bool) (q : Int) (tz : String)
    (rows : List SigRow) (idx : Nat) (acc : List Order) :
    (∀ e : OpenEntry, signal_prev rows idx = 0 ∧ (rows.getD idx default).signal = 1 →
      procBar v q tz rows (some e, acc) idx = (some e, acc)) ∧
    (signal_prev rows idx = 1 ∧ (rows.getD idx default).signal = 0 →
      procBar v q tz rows (none, acc) idx = (none, acc)) ∧
    (∀ st : Option OpenEntry × List Order,
      openPositions (procBar v q tz rows st idx).1 ≤ 1) := by
  refine ⟨?_, ?_, ?_⟩
  · rintro e ⟨h0, h1⟩
    simp only [procBar, entryStep, exitStep, h0, h1]
    simp
  · rintro ⟨h0, h1⟩
    exact procBar_flat_noop v q tz rows idx acc h1
  · intro st
    rcases (procBar v q tz rows st idx).1 with _ | e
    · simp [openPositions]
    · simp [openPositions]

/-- C3 witness: a 0→1 flip at bar 1 of `rowsGapA` while holding `eW`
opens no second position. -/
theorem at_most_one_open_position_witness :
    procBar alwaysTZ 5 "Asia/Kolkata" rowsGapA (some eW, []) 1 = (some eW, []) :=
  (at_most_one_open_position alwaysTZ 5 "Asia/Kolkata" rowsGapA 1 []).1 eW ⟨by decide, by decide⟩

/-- C5: when a position is still open at the end of the series, the
ledger is the finalized trades followed by exactly one exit-less record
carrying the open position's entry fields — no forced close and no
other record with absent exit fields. -/
theorem open_trade_flushed (v : String → Bool) (q : Int) (tz : String)
    (rows : List SigRow) (e : OpenEntry)
    (h : (ordersFold v q tz rows).1 = some e) :
    generate_orders v q tz rows = (ordersFold v q tz rows).2 ++ [flushRecord e] ∧
    (∀ o ∈ (ordersFold v q tz rows).2,
      o.exit_dt.isSome ∧ o.exit_price.isSome ∧ o.pnl.isSome ∧ o.bars_held.isSome) ∧
    (flushRecord e).entry_dt = e.entry_dt ∧ (flushRecord e).entry_price = e.entry_price ∧
    (flushRecord e).qty = e.qty ∧ (flushRecord e).exit_dt = none ∧
    (flushRecord e).exit_price = none ∧ (flushRecord e).pnl = none ∧
    (flushRecord e).bars_held = none ∧
    ((generate_orders v q tz rows).filter (fun o => o.exit_dt.isNone)).length = 1 := by
  have hout : generate_orders v q tz rows = (ordersFold v q tz rows).2 ++ [flushRecord e] := by
    simp [generate_orders, h]
  have hfin : ∀ o ∈ (ordersFold v q tz rows).2,
      o.exit_dt.isSome ∧ o.exit_price.isSome ∧ o.pnl.isSome ∧ o.bars_held.isSome := by
    have hinv := (foldl_procBar_inv v q tz rows (fun _ => True)
      (fun o => o.exit_dt.isSome ∧ o.exit_price.isSome ∧ o.pnl.isSome ∧ o.bars_held.isSome)
      (fun _ => trivial)
      (fun nxt e2 _ => by simp [exitRecord])
      (List.range (rows.length - 1)) (none, [])
      (fun e2 he2 => absurd he2 (by simp))
      (fun o ho => absurd ho (by simp))).2
    exact hinv
  refine ⟨hout, hfin, rfl, rfl, rfl, rfl, rfl, rfl, rfl, ?_⟩
  rw [hout, List.filter_append]
  have h1 : (ordersFold v q tz rows).2.filter (fun o => o.exit_dt.isNone) = [] := by
    rw [List.filter_eq_nil_iff]
    intro o ho
    rcases Option.isSome_iff_exists.mp (hfin o ho).1 with ⟨t, ht⟩
    simp [ht]
  rw [h1]
  simp [flushRecord]

/-- C5 witness: `rowsOpenW` leaves one open position; the ledger holds
exactly one exit-absent record. -/
theorem open_trade_flushed_witness :
    ((generate_orders alwaysTZ 5 "Asia/Kolkata" rowsOpenW).filter
      (fun o => o.exit_dt.isNone)).length = 1 :=
  (open_trade_flushed alwaysTZ 5 "Asia/Kolkata" rowsOpenW eOpenW
    (by decide)).2.2.2.2.2.2.2.2.2

/-- C6: on the 6-bar series with closes `[10,10,10,12,12,8]`, fast 2 and
slow 3, the signal first becomes 1 at bar 3, one position is opened at
bar 4's open (13), and — the 1→0 flip at bar 5 having no following
bar — the ledger is exactly one record with every exit field absent. -/
theorem six_bar_scenario :
    (compute_sma_signals 2 3 bars6).map SigRow.signal = [0, 0, 0, 1, 1, 0] ∧
    (bars6.getD 4 default).«open» = 13 ∧
    generate_orders alwaysTZ 7 "Asia/Kolkata" (compute_sma_signals 2 3 bars6) =
      [{ entry_dt := { date := { y := 2024, m := 1, d := 5 }, hh := 9, mm := 15, tz := some "Asia/Kolkata" },
         entry_price := 13, qty := 7, exit_dt := none, exit_price := none, pnl := none,
         bars_held := none }] := by
  refine ⟨?_, ?_, ?_⟩
  · with_unfolding_all rfl
  · with_unfolding_all rfl
  · with_unfolding_all rfl

/-- C7: holding duration is the calendar-day difference of the (timezone
stripped) exit and entry timestamps, not a bar count: every finalized
trade records `tsub_days exit entry`, the difference is insensitive to
the timezone field, and two runs whose trades span the same single bar
but different calendar gaps record durations 1 and 5. -/
theorem holding_days_are_calendar_days (v : String → Bool) (q : Int) (tz : String)
    (rows : List SigRow) :
    (∀ o ∈ generate_orders v q tz rows, ∀ t, o.exit_dt = some t →
      o.bars_held = some (tsub_days t o.entry_dt)) ∧
    (∀ a b : Timestamp, tsub_days a b = tsub_days (stripTZ a) (stripTZ b)) ∧
    (generate_orders alwaysTZ 1 "Asia/Kolkata" rowsGapA = [tradeGapA] ∧
      generate_orders alwaysTZ 1 "Asia/Kolkata" rowsGapB = [tradeGapB] ∧
      tradeGapA.bars_held = some 1 ∧ tradeGapB.bars_held = some 5 ∧
      tradeGapA.bars_held ≠ tradeGapB.bars_held) := by
  refine ⟨?_, fun a b => rfl, ?_, ?_, by decide, by decide, by decide⟩
  · apply generate_orders_inv v q tz rows (fun _ => True)
    · intro nxt
      trivial
    · intro nxt e2 _ t ht
      simp only [exitRecord, Option.some.injEq] at ht
      simp [exitRecord, ← ht]
    · intro e2 _ t ht
      simp [flushRecord] at ht
  · with_unfolding_all rfl
  · with_unfolding_all rfl

/-- C7 witness: the trade from `rowsGapA` records the calendar-day
difference between its exit and entry timestamps. -/
theorem holding_days_are_calendar_days_witness :
    tradeGapA.bars_held = some (tsub_days tsA4 tradeGapA.entry_dt) :=
  (holding_days_are_calendar_days alwaysTZ 1 "Asia/Kolkata" rowsGapA).1 tradeGapA
    (by with_unfolding_all decide) tsA4 (by decide)

theorem pad2_length (n : Int) : (pad2 n).length = 2 := rfl

theorem pad4_length (n : Int) : (pad4 n).length = 4 := rfl

theorem formatTS_length (t : Timestamp) : (formatTS t).length = 19 := by
  simp [formatTS, String.length_append, pad2_length, pad4_length]
  rfl

/-- C8: the rendered ledger has the fixed column order of `OUTPUT_COLS`;
every present timestamp renders through `formatTS` as a 19-character
local string that ignores the timezone field; and the exit cells of an
unfinished trade render as blanks, never as numeric placeholders. -/
theorem ledger_columns_and_blanks (v : String → Bool) (q : Int) (tz : String)
    (rows : List SigRow) :
    (render_ledger (generate_orders v q tz rows)).1 =
      ["entry_dt", "entry_price", "qty", "exit_dt", "exit_price", "pnl", "bars_held"] ∧
    (render_ledger (generate_orders v q tz rows)).2 =
      (generate_orders v q tz rows).map renderOrder ∧
    (∀ t : Timestamp, (formatTS t).length = 19 ∧ formatTS t = formatTS (stripTZ t)) ∧
    (∀ o ∈ generate_orders v q tz rows,
      (o.exit_dt.isSome →
        ∃ t p pn b, o.exit_dt = some t ∧ o.exit_price = some p ∧ o.pnl = some pn ∧
          o.bars_held = some b ∧
          renderOrder o = [Cell.str (formatTS o.entry_dt), Cell.num o.entry_price,
            Cell.int o.qty, Cell.str (formatTS t), Cell.num p, Cell.num pn, Cell.int b]) ∧
      (o.exit_dt = none →
        renderOrder o = [Cell.str (formatTS o.entry_dt), Cell.num o.entry_price,
          Cell.int o.qty, Cell.blank, Cell.blank, Cell.blank, Cell.blank])) := by
  refine ⟨rfl, rfl, fun t => ⟨formatTS_length t, rfl⟩, ?_⟩
  intro o ho
  rcases generate_orders_shape v q tz rows o ho with ⟨h1, h2, h3, h4⟩ | ⟨h1, h2, h3, h4⟩
  · constructor
    · intro _
      rcases Option.isSome_iff_exists.mp h1 with ⟨t, ht⟩
      rcases Option.isSome_iff_exists.mp h2 with ⟨p, hp⟩
      rcases Option.isSome_iff_exists.mp h3 with ⟨pn, hpn⟩
      rcases Option.isSome_iff_exists.mp h4 with ⟨b, hb⟩
      exact ⟨t, p, pn, b, ht, hp, hpn, hb, by simp [renderOrder, ht, hp, hpn, hb]⟩
    · intro hn
      rw [hn] at h1
      simp at h1
  · constructor
    · intro hsome
      rw [h1] at hsome
      simp at hsome
    · intro _
      simp [renderOrder, h1, h2, h3, h4]

/-- C8 witness: the open record flushed from `rowsOpenW` renders with
blank exit cells. -/
theorem ledger_columns_and_blanks_witness :
    renderOrder (flushRecord eOpenW) =
      [Cell.str (formatTS (flushRecord eOpenW).entry_dt),
       Cell.num (flushRecord eOpenW).entry_price, Cell.int (flushRecord eOpenW).qty,
       Cell.blank, Cell.blank, Cell.blank, Cell.blank] :=
  ((ledger_columns_and_blanks alwaysTZ 5 "Asia/Kolkata" rowsOpenW).2.2.2
    (flushRecord eOpenW) (by decide)).2 (by decide)

/-- C9: a series with fewer bars than the slow window yields signal 0 at
every position, and a series whose signal never leaves 0 yields an empty
ledger (the simulator is a total function — no error path exists). -/
theorem degenerate_inputs (bars : List PriceBar) (fast slow : Nat)
    (v : String → Bool) (q : Int) (tz : String) (rows : List SigRow)
    (hshort : bars.length < slow) (hflat : ∀ i, (rows.getD i default).signal = 0) :
    (∀ i, ((compute_sma_signals fast slow bars).getD i default).signal = 0) ∧
    generate_orders v q tz rows = [] := by
  constructor
  · intro i
    by_cases hi : i < bars.length
    · rw [compute_sma_signals_getD fast slow bars i hi]
      have hnone : rollingMean slow (bars.map PriceBar.close) i = none := by
        have hcond : ¬(1 ≤ slow ∧ slow ≤ i + 1) := by omega
        simp [rollingMean, hcond]
      cases hA : rollingMean fast (bars.map PriceBar.close) i with
      | none => simp [sigRowAt, hnone, hA, smaGT]
      | some f => simp [sigRowAt, hnone, hA, smaGT]
    · rw [List.getD_eq_default _ _ (by simpa [compute_sma_signals_length] using Nat.le_of_not_lt hi)]
      rfl
  · have hfold : ordersFold v q tz rows = (none, []) := by
      unfold ordersFold
      apply foldl_procBar_flat
      intro i _
      exact hflat i
    simp [generate_orders, hfold]

/-- C9 witness: six bars with slow window 10 give an all-zero signal, and
an all-zero-signal series produces an empty ledger. -/
theorem degenerate_inputs_witness :
    (∀ i, ((compute_sma_signals 2 10 bars6).getD i default).signal = 0) ∧
    generate_orders alwaysTZ 5 "Asia/Kolkata" rows0 = [] :=
  degenerate_inputs bars6 2 10 alwaysTZ 5 "Asia/Kolkata" rows0 (by decide)
    (by intro i
        match i with
        | 0 => rfl
        | 1 => rfl
        | 2 => rfl
        | n + 3 => rfl)

/-- C10: `_make_dt` is total — when localization fails it returns the
naive timestamp built from the same date and time instead of an error,
when it succeeds it returns the localized one, and under an invalid
configured timezone every timestamp in the generated ledger is naive. -/
theorem make_dt_never_raises (v : String → Bool) (dt : Date) (hh mm : Int)
    (tzname : String) :
    (v tzname = false → _make_dt v dt hh mm tzname =
      { date := dt, hh := hh, mm := mm, tz := none }) ∧
    (v tzname = true → _make_dt v dt hh mm tzname =
      { date := dt, hh := hh, mm := mm, tz := some tzname }) ∧
    (∀ (q : Int) (rows : List SigRow), v tzname = false →
      ∀ o ∈ generate_orders v q tzname rows,
        o.entry_dt.tz = none ∧ ∀ t, o.exit_dt = some t → t.tz = none) := by
  refine ⟨?_, ?_, ?_⟩
  · intro hv
    simp [_make_dt, hv]
  · intro hv
    simp [_make_dt, hv]
  · intro q rows hv o ho
    have hS := generate_orders_inv v q tzname rows
      (fun e => e.entry_dt.tz = none)
      (fun o => o.entry_dt.tz = none ∧ ∀ t, o.exit_dt = some t → t.tz = none)
      (fun nxt => by simp [entryOf, _make_dt, hv])
      (fun nxt e he => by
        refine ⟨he, ?_⟩
        intro t ht
        simp only [exitRecord, Option.some.injEq] at ht
        simp [← ht, _make_dt, hv])
      (fun e he => by
        refine ⟨he, ?_⟩
        intro t ht
        simp [flushRecord] at ht)
      o ho
    exact hS

/-- C10 witness: an unknown zone name yields the naive timestamp. -/
theorem make_dt_never_raises_witness :
    _make_dt neverTZ { y := 2024, m := 1, d := 5 } 9 15 "Not/AZone" =
      { date := { y := 2024, m := 1, d := 5 }, hh := 9, mm := 15, tz := none } :=
  (make_dt_never_raises neverTZ { y := 2024, m := 1, d := 5 } 9 15 "Not/AZone").1 rfl
